import Mathlib

/-!
Verification of the VideoLingo dubbing-timeline core
(`core/_8_2_dub_chunks.py`, `core/_10_gen_audio.py`, `core/_6_gen_sub.py`).

Times and durations are embedded as rationals (`ℚ`); Python's `round(x, 3)`
is embedded as round-half-to-even at millisecond resolution, and `int(x)`
(on the nonnegative values it is applied to) as the floor.
-/

/-- `MAX_MERGE_COUNT` from `_8_2_dub_chunks.py`. -/
def MAX_MERGE_COUNT : Nat := 5

/-- `WARMUP_SIZE` from `_10_gen_audio.py`. -/
def WARMUP_SIZE : Nat := 5

/-- Round-half-to-even to an integer, the rounding used by Python's `round`. -/
def round_half_even (q : ℚ) : ℤ :=
  if q - ⌊q⌋ < 1/2 then ⌊q⌋
  else if 1/2 < q - ⌊q⌋ then ⌊q⌋ + 1
  else if 2 ∣ ⌊q⌋ then ⌊q⌋ else ⌊q⌋ + 1

/-- Python `round(q, 3)`: round to three decimal places, ties to even. -/
def round3 (q : ℚ) : ℚ := (round_half_even (q * 1000) : ℚ) / 1000

/-- `calc_if_too_fast` from `_8_2_dub_chunks.py`.  `accept_speed` is the
configuration value `speed_factor.accept` read by `load_key` in the source. -/
def calc_if_too_fast (accept_speed est_dur tol_dur duration tolerance : ℚ) : ℤ :=
  if est_dur / accept_speed > tol_dur then 2
  else if est_dur > tol_dur then 1
  else if est_dur < duration - tolerance then -1
  else 0

/-- One row of the chunk table consumed by `process_chunk`
(`real_dur`, `tol_dur`, `tolerance`, `gap` columns of `chunk_df`). -/
structure ChunkRow where
  real_dur : ℚ
  tol_dur : ℚ
  tolerance : ℚ
  gap : ℚ
deriving Repr, DecidableEq

/-- `chunk_df['real_dur'].sum()`. -/
def chunk_durs (c : List ChunkRow) : ℚ := (c.map (·.real_dur)).sum

/-- `chunk_df['tol_dur'].sum()`. -/
def chunk_tol_durs (c : List ChunkRow) : ℚ := (c.map (·.tol_dur)).sum

/-- `tol_durs - chunk_df.iloc[-1]['tolerance']`. -/
def chunk_durations (c : List ChunkRow) : ℚ :=
  chunk_tol_durs c - ((c.getLast?.map (·.tolerance)).getD 0)

/-- `chunk_df['gap'].sum() - chunk_df.iloc[-1]['gap']`. -/
def chunk_all_gaps (c : List ChunkRow) : ℚ :=
  (c.map (·.gap)).sum - ((c.getLast?.map (·.gap)).getD 0)

/-- `process_chunk` from `_10_gen_audio.py`: pick the uniform speed factor and
the gap-retention policy for one chunk.  Returns `(round(speed_factor, 3),
keep_gaps)` exactly as the source does. -/
def process_chunk (chunk_df : List ChunkRow) (accept min_speed : ℚ) : ℚ × Bool :=
  let cd := chunk_durs chunk_df
  let td := chunk_tol_durs chunk_df
  let durations := chunk_durations chunk_df
  let all_gaps := chunk_all_gaps chunk_df
  let speed_var_error : ℚ := 1/10
  if (cd + all_gaps) / accept < durations then
    (round3 (max min_speed ((cd + all_gaps) / (durations - speed_var_error))), true)
  else if cd / accept < durations then
    (round3 (max min_speed (cd / (durations - speed_var_error))), false)
  else if (cd + all_gaps) / accept < td then
    (round3 (max min_speed ((cd + all_gaps) / (td - speed_var_error))), true)
  else
    (round3 (cd / (td - speed_var_error)), false)

/-- The two-line chunk realizing the spec's worked example:
`chunk_durs = 5.0`, `all_gaps = 1.0`, `durations = 5.5`, `tol_durs = 6.0`. -/
def exampleChunk : List ChunkRow :=
  [⟨5/2, 3, 3/10, 1⟩, ⟨5/2, 3, 1/2, 9⟩]

/-! ## TimingAnalyzer (`_8_2_dub_chunks.analyze_subtitle_timing_and_speed`) -/

/-- Input row of the analyzer: original subtitle timing plus the (externally
estimated) spoken duration `est_dur` that `estimate_duration` would return for
the row's text. -/
structure TimedLine where
  start_time : ℚ
  end_time : ℚ
  duration : ℚ
  est_dur : ℚ
deriving Repr, DecidableEq, Inhabited

/-- Output row of the analyzer: the input enriched with `gap`, `tolerance`,
`tol_dur` and the `if_too_fast` speed flag. -/
structure AnalyzedLine where
  start_time : ℚ
  end_time : ℚ
  duration : ℚ
  est_dur : ℚ
  gap : ℚ
  tolerance : ℚ
  tol_dur : ℚ
  if_too_fast : ℤ
deriving Repr, DecidableEq, Inhabited

/-- Modelled from the spec: `time_diff_seconds` is imported from
`core._8_1_audio_task` but its definition is absent from the sources;
per spec §4.2 the gap it computes is `start[i+1] - end[i]`, so the
difference `t2 - t1` in seconds. -/
def time_diff_seconds (t1 t2 : ℚ) : ℚ := t2 - t1

/-- The per-line body of `analyze_subtitle_timing_and_speed`:
`TOLERANCE` is the config value `tolerance`, `whole_dur` the duration of
`_RAW_AUDIO_FILE`, `accept` the config value `speed_factor.accept`, and the
list argument is the current line followed by the remaining lines (the last
line's gap runs to the end of the audio). -/
def analyzeLines (TOLERANCE whole_dur accept : ℚ) : List TimedLine → List AnalyzedLine
  | [] => []
  | l :: rest =>
    let gap := match rest with
      | [] => whole_dur - l.end_time
      | nl :: _ => time_diff_seconds l.end_time nl.start_time
    let tolerance := min gap TOLERANCE
    let tol_dur := l.duration + tolerance
    { start_time := l.start_time, end_time := l.end_time, duration := l.duration,
      est_dur := l.est_dur, gap := gap, tolerance := tolerance, tol_dur := tol_dur,
      if_too_fast := calc_if_too_fast accept l.est_dur tol_dur l.duration tolerance }
      :: analyzeLines TOLERANCE whole_dur accept rest

/-! ## ChunkPlanner (`_8_2_dub_chunks.process_cutoffs` and `merge_rows`) -/

/-- Row of the planner's table: the analyzed fields it reads plus the
`cut_off` column it writes. -/
structure PlanLine where
  gap : ℚ
  tolerance : ℚ
  tol_dur : ℚ
  duration : ℚ
  est_dur : ℚ
  if_too_fast : ℤ
  cut_off : Nat
deriving Repr, DecidableEq, Inhabited

/-- `df.at[i, 'cut_off'] = 1` on a single row. -/
def markCut (l : PlanLine) : PlanLine :=
  { l with cut_off := 1 }

/-- `df.at[i, 'cut_off'] = 1` on the table. -/
def setCutoff (df : List PlanLine) (i : Nat) : List PlanLine :=
  df.set i (markCut (df.getD i default))

/-- The `while` loop of `merge_rows`: `merged_est/merged_tol/merged_dur` are
the running sums held in `merged`, `merge_count` the loop counter.  Returns
the updated table and the value `merge_rows` returns. -/
def merge_rows_loop (accept : ℚ) (df : List PlanLine) (start_idx : Nat)
    (merged_est merged_tol merged_dur : ℚ) (merge_count : Nat) :
    List PlanLine × Nat :=
  if h : merge_count < MAX_MERGE_COUNT ∧ start_idx + merge_count < df.length then
    let next_row := df.getD (start_idx + merge_count) default
    let e := merged_est + next_row.est_dur
    let t := merged_tol + next_row.tol_dur
    let d := merged_dur + next_row.duration
    let speed_flag := calc_if_too_fast accept e t d next_row.tolerance
    if speed_flag ≤ 0 ∨ merge_count = 2 then
      (setCutoff df (start_idx + merge_count), merge_count + 1)
    else
      merge_rows_loop accept df start_idx e t d (merge_count + 1)
  else
    (if MAX_MERGE_COUNT ≤ merge_count ∨ df.length ≤ start_idx + merge_count then
      setCutoff df (start_idx + merge_count - 1)
    else df, merge_count)
termination_by MAX_MERGE_COUNT - merge_count
decreasing_by omega

/-- `merge_rows` from `_8_2_dub_chunks.py`: absorb rows after `start_idx`
until the combined speed flag clears, returning the updated table and the
number of merged rows. -/
def merge_rows (accept : ℚ) (df : List PlanLine) (start_idx merge_count : Nat) :
    List PlanLine × Nat :=
  let start_row := df.getD start_idx default
  merge_rows_loop accept df start_idx
    start_row.est_dur start_row.tol_dur start_row.duration merge_count

/-- `df['cut_off'] = 0` followed by `df.loc[df['gap'] >= TOLERANCE,
'cut_off'] = 1`. -/
def initCutoffs (TOLERANCE : ℚ) (df : List PlanLine) : List PlanLine :=
  df.map (fun l => { l with cut_off := if TOLERANCE ≤ l.gap then 1 else 0 })

/-- The `while idx < len(df)` scan of `process_cutoffs`, written with a fuel
argument (each iteration advances `idx` by at least one, so `df.length` fuel
suffices; fuel exhaustion is unreachable on such advancing runs). -/
def process_cutoffs_loop (accept : ℚ) (fuel : Nat) (df : List PlanLine) (idx : Nat) :
    List PlanLine :=
  match fuel with
  | 0 => df
  | fuel + 1 =>
    if idx < df.length then
      if (df.getD idx default).cut_off = 1 then
        process_cutoffs_loop accept fuel df (idx + 1)
      else if df.length ≤ idx + 1 then
        setCutoff df idx
      else if (df.getD idx default).if_too_fast ≤ 0 ∧
          (df.getD (idx + 1) default).if_too_fast ≤ 0 then
        process_cutoffs_loop accept fuel (setCutoff df idx) (idx + 1)
      else
        let r := merge_rows accept df idx 1
        process_cutoffs_loop accept fuel r.1 (idx + r.2)
    else df

/-- `process_cutoffs` from `_8_2_dub_chunks.py`: initialize cut points at
long gaps, then scan, merging fast lines. -/
def process_cutoffs (accept TOLERANCE : ℚ) (df : List PlanLine) : List PlanLine :=
  process_cutoffs_loop accept df.length (initCutoffs TOLERANCE df) 0

/-- Cut the planner's output into chunks after each `cut_off = 1` line
(any trailing lines without a cut point form a final run). -/
def chunksOf : List PlanLine → List (List PlanLine)
  | [] => []
  | l :: rest =>
    if l.cut_off = 1 then [l] :: chunksOf rest
    else
      match chunksOf rest with
      | [] => [[l]]
      | c :: cs => (l :: c) :: cs

/-- The planner only ever sets `cut_off` to 1: each row of `df'` is the
corresponding row of `df`, possibly with its cut mark set. -/
def PlanMono (df df' : List PlanLine) : Prop :=
  df'.length = df.length ∧
  ∀ i : Nat, df'.getD i default = df.getD i default ∨
    df'.getD i default = markCut (df.getD i default)

/-! ## Speed-change corrector (`_10_gen_audio.adjust_audio_speed`)

The embedding abstracts the file system: `input_duration` is the measured
duration of `input_file`, `output_duration` the duration the external
`ffmpeg atempo` call produced for `output_file`, and the result is the
duration of the final output file (`Except Unit ℚ`, with `Except.error ()`
standing for the fatal drift `RuntimeError`).  The pydub trim
`audio[:int(expected_duration * 1000)]` leaves a clip of
`⌊expected · 1000⌋` milliseconds. -/

def adjust_audio_speed (input_duration speed_factor output_duration : ℚ) :
    Except Unit ℚ :=
  if |speed_factor - 1| < 1/1000 then
    Except.ok input_duration
  else
    let expected_duration := input_duration / speed_factor
    let diff := output_duration - expected_duration
    if expected_duration * (102/100) ≤ output_duration ∧ input_duration < 3 ∧
        diff ≤ 1/10 then
      Except.ok ((⌊expected_duration * 1000⌋ : ℚ) / 1000)
    else if expected_duration * (102/100) ≤ output_duration then
      Except.error ()
    else
      Except.ok output_duration

/-! ## Synthesis dispatcher (`_10_gen_audio.generate_tts_audio`)

Each task's external synthesis outcome is abstracted as `Option ℚ`:
`some d` when `process_row` returns total duration `d`, `none` when it
raises after exhausting its retries.  The warm-up prefix (the first
`min WARMUP_SIZE n` tasks) is processed sequentially and re-raises
(`Option.none` result for the whole batch); the remaining tasks are
processed with failures recorded as the sentinel `real_dur = -1`.
Thread arrival order is irrelevant to the recorded results, so the
parallel phase is embedded as a map. -/

def processWarmup : List (Option ℚ) → Option (List ℚ)
  | [] => some []
  | some d :: rest => (processWarmup rest).map (d :: ·)
  | none :: _ => none

def processParallel (results : List (Option ℚ)) : List ℚ :=
  results.map (fun r => r.getD (-1))

def generate_tts_audio (results : List (Option ℚ)) : Option (List ℚ) :=
  let w := min WARMUP_SIZE results.length
  match processWarmup (results.take w) with
  | none => none
  | some ds => some (ds ++ processParallel (results.drop w))

/-! ## TimelineRenderer (`_10_gen_audio.merge_chunks`, per-chunk part)

A chunk's row carries the original `gap` and `tolerance` columns plus the
measured durations (`ad_dur = get_audio_duration(output_file)`) of its
speed-adjusted clips.  The renderer walks the chunk with the cursor
`cur_time`, recording `[cur_time, cur_time + ad_dur]` per clip. -/

structure RenderRow where
  gap : ℚ
  tolerance : ℚ
  ad_durs : List ℚ
deriving Repr, DecidableEq, Inhabited

/-- Render the clips of one row: thread the cursor through `ad_durs`,
recording each clip's `[start, end]`. -/
def renderLine (cur : ℚ) : List ℚ → List (ℚ × ℚ) × ℚ
  | [] => ([], cur)
  | d :: ds =>
    let rest := renderLine (cur + d) ds
    ((cur, cur + d) :: rest.1, rest.2)

/-- Render the rows after the first one: before each row, if `keep_gaps`,
advance the cursor by the previous row's `gap / speed_factor`. -/
def renderRest (speed_factor : ℚ) (keep_gaps : Bool) (prev_gap : ℚ) :
    List RenderRow → ℚ → List (List (ℚ × ℚ)) × ℚ
  | [], cur => ([], cur)
  | r :: rest, cur =>
    let cur0 := if keep_gaps then cur + prev_gap / speed_factor else cur
    let line := renderLine cur0 r.ad_durs
    let tail := renderRest speed_factor keep_gaps r.gap rest line.2
    (line.1 :: tail.1, tail.2)

/-- Render a whole chunk starting the cursor at `chunk_start_time`
(the first row never receives a gap advance: `i != 0` in the source). -/
def renderChunk (speed_factor : ℚ) (keep_gaps : Bool) (rows : List RenderRow)
    (chunk_start_time : ℚ) : List (List (ℚ × ℚ)) × ℚ :=
  match rows with
  | [] => ([], chunk_start_time)
  | r :: rest =>
    let line := renderLine chunk_start_time r.ad_durs
    let tail := renderRest speed_factor keep_gaps r.gap rest line.2
    (line.1 :: tail.1, tail.2)

/-- Replace the end of the last recorded clip of the last row by `t`
(`last_times[-1][1] = chunk_end_time` in the source). -/
def setLastEnd (times : List (List (ℚ × ℚ))) (t : ℚ) : List (List (ℚ × ℚ)) :=
  match times.getLast? with
  | none => times
  | some lastLine =>
    match lastLine.getLast? with
    | none => times
    | some lastClip =>
      times.set (times.length - 1)
        (lastLine.set (lastLine.length - 1) (lastClip.1, t))

/-- The end of the last recorded clip, if any. -/
def lastEnd (times : List (List (ℚ × ℚ))) : Option ℚ :=
  (times.getLast?.bind (·.getLast?)).map (·.2)

/-- Step 5 of `merge_chunks`: if the cursor overran the chunk's nominal end
by at most 0.6 s, trim the excess off the final clip's recorded interval
(the clip file itself is cut to the same length); larger overflow is left
as is. -/
def applyOverflowCorrection (times : List (List (ℚ × ℚ))) (cur_time chunk_end_time : ℚ) :
    List (List (ℚ × ℚ)) :=
  if chunk_end_time < cur_time ∧ cur_time - chunk_end_time ≤ 6/10 then
    setLastEnd times chunk_end_time
  else times

/-- The per-chunk portion of `merge_chunks`: solve the chunk's speed with
`process_chunk`, render it from the first line's start, and apply the
overflow correction against `chunk_end_time` = last line's end plus its
tolerance. -/
def mergeOneChunk (speed_factor : ℚ) (keep_gaps : Bool) (rows : List RenderRow)
    (chunk_start_time chunk_end_time : ℚ) : List (List (ℚ × ℚ)) :=
  let rendered := renderChunk speed_factor keep_gaps rows chunk_start_time
  applyOverflowCorrection rendered.1 rendered.2 chunk_end_time

/-! ## TimestampAligner (`_6_gen_sub.get_sentence_timestamps`)

Text is embedded as `List Char`.  Python's `\s`/`\w` classes are embedded
by `Char.isWhitespace` and ASCII alphanumerics plus underscore. -/

/-- `re.sub(r'\s+', ' ', text)`: collapse each whitespace run into one space. -/
def collapseWs : List Char → List Char
  | [] => []
  | c :: rest =>
    if c.isWhitespace then ' ' :: collapseWs (rest.dropWhile Char.isWhitespace)
    else c :: collapseWs rest
termination_by l => l.length
decreasing_by
  · have := (List.dropWhile_sublist (l := rest) Char.isWhitespace).length_le
    simp only [List.length_cons]
    omega
  · simp only [List.length_cons]
    omega

/-- Python's `\w` class (ASCII part): letters, digits, underscore. -/
def isWordChar (c : Char) : Bool := c.isAlphanum || c = '_'

/-- `remove_punctuation` from `_6_gen_sub.py`: collapse whitespace, drop
characters outside `\w`/`\s`, lowercase, strip. -/
def remove_punctuation (text : List Char) : List Char :=
  let s1 := collapseWs text
  let s2 := s1.filter (fun c => isWordChar c || c.isWhitespace)
  let s3 := s2.map Char.toLower
  ((s3.dropWhile Char.isWhitespace).reverse.dropWhile Char.isWhitespace).reverse

/-- A recognizer word with its timestamps (`df_words` row: `text`, `start`,
`end`). -/
structure AsrWord where
  text : List Char
  start : ℚ
  stop : ℚ
deriving Repr, DecidableEq, Inhabited

/-- The cleaned word texts, in order. -/
def cleanWordsOf (words : List AsrWord) : List (List Char) :=
  words.map (fun w => remove_punctuation w.text)

/-- `full_words_str`: concatenation of all cleaned words. -/
def fullWordsStr (words : List AsrWord) : List Char :=
  (cleanWordsOf words).flatten

/-- `position_to_word_idx`: walk the cleaned words, consuming `pos`. -/
def posToWordIdxAux : List (List Char) → Nat → Nat → Nat
  | [], _, i => i
  | w :: ws, p, i => if p < w.length then i else posToWordIdxAux ws (p - w.length) (i + 1)

/-- Index of the word owning character position `pos` of `full_words_str`. -/
def posToWordIdx (cleanWords : List (List Char)) (pos : Nat) : Nat :=
  posToWordIdxAux cleanWords pos 0

/-- `remove_punctuation(sentence).replace(" ", "")`. -/
def cleanSentence (s : List Char) : List Char :=
  (remove_punctuation s).filter (fun c => c ≠ ' ')

/-- The `while search_pos <= len(full_words_str) - sentence_len` scan:
first position `≥ pos` where `pat` occurs as a slice of `hay`. -/
def findMatchFrom (hay pat : List Char) (pos : Nat) : Option Nat :=
  if h : pos + pat.length ≤ hay.length then
    if (hay.drop pos).take pat.length = pat then some pos
    else findMatchFrom hay pat (pos + 1)
  else none
termination_by hay.length + 1 - pos
decreasing_by omega

/-- One iteration of the sentence loop of `get_sentence_timestamps`: returns
the recorded interval and the new cursor, or `none` when no exact match
exists (the source then raises `ValueError`). -/
def alignStep (words : List AsrWord) (s : List Char) (cur : Nat) :
    Option ((ℚ × ℚ) × Nat) :=
  let cleanWords := cleanWordsOf words
  let cs := cleanSentence s
  if cs.isEmpty then some ((0, 0), cur)
  else
    match findMatchFrom (fullWordsStr words) cs cur with
    | some p =>
      let start_word_idx := posToWordIdx cleanWords p
      let end_word_idx := posToWordIdx cleanWords (p + cs.length - 1)
      some (((words.getD start_word_idx default).start,
             (words.getD end_word_idx default).stop), p + cs.length)
    | none => none

/-- The sentence loop, threading `current_pos`. -/
def alignGo (words : List AsrWord) : List (List Char) → Nat → Option (List (ℚ × ℚ))
  | [], _ => some []
  | s :: rest, cur =>
    match alignStep words s cur with
    | none => none
    | some r => (alignGo words rest r.2).map (r.1 :: ·)

/-- `get_sentence_timestamps` from `_6_gen_sub.py` (`none` embeds the raised
`ValueError`). -/
def get_sentence_timestamps (words : List AsrWord) (sentences : List (List Char)) :
    Option (List (ℚ × ℚ)) :=
  alignGo words sentences 0

/-! ## Helper lemmas -/

theorem floor_le_round_half_even (q : ℚ) : ⌊q⌋ ≤ round_half_even q := by
  unfold round_half_even
  split_ifs <;> omega

theorem round3_ge_of_thousandth_le {m q : ℚ} (k : ℤ) (hm : m = (k : ℚ) / 1000)
    (h : m ≤ q) : m ≤ round3 q := by
  have hk : (k : ℚ) ≤ q * 1000 := by
    rw [hm] at h
    nlinarith
  have hfloor : k ≤ ⌊q * 1000⌋ := Int.le_floor.mpr hk
  have := floor_le_round_half_even (q * 1000)
  rw [hm, round3, div_le_div_iff_of_pos_right (by norm_num : (0:ℚ) < 1000)]
  exact_mod_cast le_trans hfloor this

theorem processWarmup_all_some (rs : List (Option ℚ)) (h : ∀ r ∈ rs, r ≠ none) :
    processWarmup rs = some (rs.map (fun r => r.getD 0)) := by
  induction rs with
  | nil => rfl
  | cons r rest ih =>
    match r, h r (by simp) with
    | some d, _ =>
      simp only [processWarmup, List.map_cons, Option.getD_some]
      rw [ih (fun x hx => h x (by simp [hx]))]
      rfl

/-! ## C5: speed classification -/

/-- C5: `calc_if_too_fast` returns `2` exactly when `est_dur/accept > tol_dur`,
otherwise `1` exactly when `est_dur > tol_dur`, otherwise `-1` exactly when
`est_dur < duration - tolerance`, and `0` in all remaining cases; on the
worked example (`duration = 2`, `tolerance = 0.3`, `tol_dur = 2.3`,
`est_dur = 2.1`, `accept = 1.2`) the flag is `0`. -/
theorem C5_speed_classification (accept est_dur tol_dur duration tolerance : ℚ) :
    (calc_if_too_fast accept est_dur tol_dur duration tolerance = 2 ↔
      tol_dur < est_dur / accept)
    ∧ (calc_if_too_fast accept est_dur tol_dur duration tolerance = 1 ↔
      est_dur / accept ≤ tol_dur ∧ tol_dur < est_dur)
    ∧ (calc_if_too_fast accept est_dur tol_dur duration tolerance = -1 ↔
      est_dur / accept ≤ tol_dur ∧ est_dur ≤ tol_dur ∧ est_dur < duration - tolerance)
    ∧ (calc_if_too_fast accept est_dur tol_dur duration tolerance = 0 ↔
      est_dur / accept ≤ tol_dur ∧ est_dur ≤ tol_dur ∧ duration - tolerance ≤ est_dur)
    ∧ calc_if_too_fast (6/5) (21/10) (23/10) 2 (3/10) = 0 := by
  refine ⟨?_, ?_, ?_, ?_, by norm_num [calc_if_too_fast]⟩ <;>
    · unfold calc_if_too_fast
      split_ifs <;> simp_all <;> linarith

/-! ## C10: near-unity speed factors -/

/-- C10: when the speed factor is within `0.001` of `1.0`,
`adjust_audio_speed` copies the input clip unchanged, so the adjusted
duration equals the raw duration and the drift check, short-clip trim and
drift error are all skipped. -/
theorem C10_near_unity_copies_input (input_duration speed_factor output_duration : ℚ)
    (h : |speed_factor - 1| < 1/1000) :
    adjust_audio_speed input_duration speed_factor output_duration =
      Except.ok input_duration := by
  unfold adjust_audio_speed
  rw [if_pos h]

/-- Witness for C10 at `speed_factor = 1`. -/
theorem C10_near_unity_copies_input_witness :
    adjust_audio_speed 5 1 7 = Except.ok 5 :=
  C10_near_unity_copies_input 5 1 7 (by norm_num)

/-! ## C3: drift correction of the external speed-change primitive -/

/-- C3 counterexample: on the spec's own worked example (`raw = 2 s`,
`factor = 1.5`, output `1.36 s`) the trim target is `int(expected·1000)` =
1333 milliseconds, which is not exactly the theoretical duration `4/3 s`. -/
theorem C3_exact_trim_counterexample :
    adjust_audio_speed 2 (3/2) (136/100) = Except.ok (1333/1000) ∧
    (1333/1000 : ℚ) ≠ 2 / (3/2) := by
  have hfl : ⌊((2:ℚ)/(3/2)) * 1000⌋ = (1333 : ℤ) := by
    rw [Int.floor_eq_iff]; norm_num
  constructor
  · unfold adjust_audio_speed
    rw [if_neg (by rw [show ((3:ℚ)/2 - 1) = 1/2 by norm_num,
          abs_of_nonneg (by norm_num)]; norm_num),
        if_pos (by norm_num)]
    rw [hfl]
    norm_num
  · norm_num

/-- C3 (amended): outside the near-unity fast path, a result with relative
excess ≥ 2% is hard-trimmed to the theoretical duration truncated to whole
milliseconds when the raw clip is under 3 s and the absolute excess is at
most 0.1 s; any other result with ≥ 2% relative excess raises the fatal
drift error; a result with less than 2% relative excess is returned
unmodified.  On the worked example (`raw = 2`, `factor = 1.5`, output
`1.36`) the clip is trimmed to `1.333 s`. -/
theorem C3_drift_correction (input_duration speed_factor output_duration : ℚ)
    (hs : 1/1000 ≤ |speed_factor - 1|) :
    (input_duration / speed_factor * (102/100) ≤ output_duration →
      input_duration < 3 →
      output_duration - input_duration / speed_factor ≤ 1/10 →
      adjust_audio_speed input_duration speed_factor output_duration =
        Except.ok ((⌊input_duration / speed_factor * 1000⌋ : ℚ) / 1000))
    ∧ (input_duration / speed_factor * (102/100) ≤ output_duration →
      ¬(input_duration < 3 ∧ output_duration - input_duration / speed_factor ≤ 1/10) →
      adjust_audio_speed input_duration speed_factor output_duration =
        Except.error ())
    ∧ (output_duration < input_duration / speed_factor * (102/100) →
      adjust_audio_speed input_duration speed_factor output_duration =
        Except.ok output_duration) := by
  have hs' : ¬ |speed_factor - 1| < 1/1000 := not_lt.mpr hs
  refine ⟨fun h1 h2 h3 => ?_, fun h1 h2 => ?_, fun h1 => ?_⟩ <;>
    unfold adjust_audio_speed <;> rw [if_neg hs']
  · rw [if_pos ⟨h1, h2, h3⟩]
  · rw [if_neg (by tauto), if_pos h1]
  · rw [if_neg (by rintro ⟨h, -⟩; linarith), if_neg (by linarith)]

/-- Witness for C3: the branches of `C3_drift_correction` evaluated at
concrete inputs (trim at the worked example, drift error at output `3 s`,
pass-through at output `1.35 s`). -/
theorem C3_drift_correction_witness :
    adjust_audio_speed 2 (3/2) (136/100) = Except.ok (1333/1000) ∧
    adjust_audio_speed 2 (3/2) 3 = Except.error () ∧
    adjust_audio_speed 2 (3/2) (135/100) = Except.ok (135/100) := by
  have habs : (1:ℚ)/1000 ≤ |(3:ℚ)/2 - 1| := by
    rw [show ((3:ℚ)/2 - 1) = 1/2 by norm_num, abs_of_nonneg (by norm_num)]
    norm_num
  refine ⟨?_, ?_, ?_⟩
  · have := (C3_drift_correction 2 (3/2) (136/100) habs).1 (by norm_num) (by norm_num)
      (by norm_num)
    rw [this, show ⌊((2:ℚ)/(3/2)) * 1000⌋ = (1333 : ℤ) by
      rw [Int.floor_eq_iff]; norm_num]
    norm_num
  · exact (C3_drift_correction 2 (3/2) 3 habs).2.1 (by norm_num) (by norm_num)
  · exact (C3_drift_correction 2 (3/2) (135/100) habs).2.2 (by norm_num)

/-! ## C8: tolerance of per-line synthesis failures -/

theorem getD_map_of_lt {α β : Type} [Inhabited α] (l : List α) (f : α → β) (i : Nat)
    (h : i < l.length) (d : β) : (l.map f).getD i d = f (l.getD i default) := by
  rw [List.getD_eq_getElem _ _ (by simpa using h), List.getElem_map,
    List.getD_eq_getElem _ _ h]

theorem getD_take_of_lt {α : Type} (l : List α) (w i : Nat) (hi : i < w)
    (hw : i < l.length) (d : α) : (l.take w).getD i d = l.getD i d := by
  rw [List.getD_eq_getElem _ _ (by simp; omega), List.getElem_take,
    List.getD_eq_getElem _ _ hw]

theorem getD_drop {α : Type} (l : List α) (w i : Nat) (h : w + i < l.length) (d : α) :
    (l.drop w).getD i d = l.getD (w + i) d := by
  rw [List.getD_eq_getElem _ _ (by simp; omega), List.getElem_drop,
    List.getD_eq_getElem _ _ h]

/-- C8 counterexample: a batch consisting of one failing synthesis task is
aborted (`none`) rather than completed with the sentinel `-1`: warm-up
failures re-raise instead of being tolerated. -/
theorem C8_warmup_abort_counterexample :
    generate_tts_audio [none] = none ∧
    generate_tts_audio [none] ≠ some [(-1 : ℚ)] := by
  constructor <;> simp [generate_tts_audio, processWarmup, WARMUP_SIZE]

/-- C8 (amended): a synthesis failure is tolerated only in the parallel
phase, i.e. for tasks after the warm-up prefix of `min WARMUP_SIZE n`
tasks: provided all warm-up tasks succeed, the batch completes, a failed
line is recorded with the sentinel duration `-1`, and every successful
line keeps its measured duration.  (A warm-up failure re-raises and aborts
the whole batch, see `C8_warmup_abort_counterexample`.) -/
theorem C8_parallel_failures_tolerated (results : List (Option ℚ))
    (hw : ∀ r ∈ results.take (min WARMUP_SIZE results.length), r ≠ none) :
    ∃ ds, generate_tts_audio results = some ds ∧
      ds.length = results.length ∧
      (∀ i, min WARMUP_SIZE results.length ≤ i → i < results.length →
        results.getD i default = none → ds.getD i 0 = -1) ∧
      (∀ i d, results.getD i default = some d → ds.getD i 0 = d) := by
  have hwle : min WARMUP_SIZE results.length ≤ results.length := min_le_right _ _
  set w := min WARMUP_SIZE results.length with hwdef
  have hAlen : ((results.take w).map (fun r : Option ℚ => r.getD 0)).length = w := by
    simp [min_eq_left hwle]
  refine ⟨(results.take w).map (fun r => r.getD 0) ++
      (results.drop w).map (fun r => r.getD (-1)), ?_, ?_, ?_, ?_⟩
  · simp only [generate_tts_audio]
    rw [← hwdef, processWarmup_all_some _ hw]
    rfl
  · simp only [List.length_append, List.length_map, List.length_take, List.length_drop]
    omega
  · intro i hwi hi hnone
    rw [List.getD_append_right _ _ _ _ (by rw [hAlen]; omega), hAlen,
      getD_map_of_lt _ _ _ (by simp only [List.length_drop]; omega),
      getD_drop _ _ _ (by omega), show w + (i - w) = i by omega, hnone]
    rfl
  · intro i d hsome
    have hi : i < results.length := by
      by_contra hcon
      rw [List.getD_eq_default _ _ (by omega)] at hsome
      exact Option.noConfusion hsome
    rcases Nat.lt_or_ge i w with hiw | hiw
    · rw [List.getD_append _ _ _ _ (by rw [hAlen]; omega),
        getD_map_of_lt _ _ _ (by simp only [List.length_take]; omega),
        getD_take_of_lt _ _ _ hiw hi, hsome]
      rfl
    · rw [List.getD_append_right _ _ _ _ (by rw [hAlen]; omega), hAlen,
        getD_map_of_lt _ _ _ (by simp only [List.length_drop]; omega),
        getD_drop _ _ _ (by omega), show w + (i - w) = i by omega, hsome]
      rfl

/-- Witness for C8: a seven-task batch whose sixth task fails completes with
the sentinel `-1` recorded for it. -/
theorem C8_parallel_failures_tolerated_witness :
    generate_tts_audio [some 1, some 2, some 3, some 4, some 5, none, some 7] =
      some [1, 2, 3, 4, 5, -1, 7] := by
  obtain ⟨ds, hds, hlen, hsent, hsucc⟩ :=
    C8_parallel_failures_tolerated [some 1, some 2, some 3, some 4, some 5, none, some 7]
      (by intro r hr; simp [WARMUP_SIZE] at hr; rcases hr with h | h | h | h | h <;>
        simp [h])
  rw [hds]
  have h0 := hsucc 0 1 rfl
  have h1 := hsucc 1 2 rfl
  have h2 := hsucc 2 3 rfl
  have h3 := hsucc 3 4 rfl
  have h4 := hsucc 4 5 rfl
  have h5 := hsent 5 (by simp [WARMUP_SIZE]) (by simp) rfl
  have h6 := hsucc 6 7 rfl
  simp only [List.length_cons, List.length_nil] at hlen
  match ds, hlen with
  | [a0, a1, a2, a3, a4, a5, a6], _ =>
    simp only [List.getD_cons_zero, List.getD_cons_succ] at h0 h1 h2 h3 h4 h5 h6
    rw [h0, h1, h2, h3, h4, h5, h6]

/-! ## C6: gap, tolerance and tolerable duration -/

theorem analyzeLines_length (TOLERANCE whole_dur accept : ℚ) (ls : List TimedLine) :
    (analyzeLines TOLERANCE whole_dur accept ls).length = ls.length := by
  induction ls with
  | nil => rfl
  | cons l rest ih => simp only [analyzeLines, List.length_cons, ih]

/-- C6: for each line `i`, the analyzer computes `gap[i] = start[i+1] −
end[i]` (last line: total audio duration minus its end), `tolerance[i] =
min(gap[i], GLOBAL_TOLERANCE)` and `tol_dur[i] = duration[i] +
tolerance[i]`. -/
theorem C6_timing_analysis (TOLERANCE whole_dur accept : ℚ) (lines : List TimedLine)
    (i : Nat) (hi : i < lines.length) :
    (analyzeLines TOLERANCE whole_dur accept lines).length = lines.length ∧
    (i + 1 < lines.length →
      ((analyzeLines TOLERANCE whole_dur accept lines).getD i default).gap =
        (lines.getD (i + 1) default).start_time - (lines.getD i default).end_time) ∧
    (i + 1 = lines.length →
      ((analyzeLines TOLERANCE whole_dur accept lines).getD i default).gap =
        whole_dur - (lines.getD i default).end_time) ∧
    ((analyzeLines TOLERANCE whole_dur accept lines).getD i default).tolerance =
      min ((analyzeLines TOLERANCE whole_dur accept lines).getD i default).gap TOLERANCE ∧
    ((analyzeLines TOLERANCE whole_dur accept lines).getD i default).tol_dur =
      (lines.getD i default).duration +
        ((analyzeLines TOLERANCE whole_dur accept lines).getD i default).tolerance := by
  refine ⟨analyzeLines_length _ _ _ _, ?_⟩
  induction lines generalizing i with
  | nil => exact absurd hi (by simp)
  | cons l rest ih =>
    cases i with
    | zero =>
      cases rest with
      | nil =>
        refine ⟨fun h => by simp only [List.length_cons, List.length_nil] at h; omega,
          fun _ => ?_, ?_, ?_⟩ <;> simp [analyzeLines, time_diff_seconds]
      | cons nl rest' =>
        refine ⟨fun _ => ?_,
          fun h => by simp only [List.length_cons] at h; omega, ?_, ?_⟩ <;>
          simp [analyzeLines, time_diff_seconds]
    | succ j =>
      have hj : j < rest.length := by simpa using hi
      obtain ⟨h1, h2, h3, h4⟩ := ih j hj
      refine ⟨fun h => ?_, fun h => ?_, ?_, ?_⟩ <;>
        simp only [analyzeLines, List.getD_cons_succ]
      · exact h1 (by simpa using h)
      · exact h2 (by simpa using h)
      · exact h3
      · exact h4

/-- Witness for C6 at the spec's worked-example line (`duration = 2`,
`gap = 0.3`, `GLOBAL_TOLERANCE = 0.5`): `tolerance = 0.3` and
`tol_dur = 2.3`. -/
theorem C6_timing_analysis_witness :
    ((analyzeLines (1/2) 10 (6/5) [⟨0, 2, 2, 1⟩, ⟨23/10, 4, 17/10, 1⟩]).getD 0
        default).gap = 3/10 ∧
    ((analyzeLines (1/2) 10 (6/5) [⟨0, 2, 2, 1⟩, ⟨23/10, 4, 17/10, 1⟩]).getD 0
        default).tolerance = 3/10 ∧
    ((analyzeLines (1/2) 10 (6/5) [⟨0, 2, 2, 1⟩, ⟨23/10, 4, 17/10, 1⟩]).getD 0
        default).tol_dur = 23/10 := by
  obtain ⟨-, h2, -, h4, h5⟩ :=
    C6_timing_analysis (1/2) 10 (6/5) [⟨0, 2, 2, 1⟩, ⟨23/10, 4, 17/10, 1⟩] 0 (by simp)
  have hg : ((analyzeLines (1/2) 10 (6/5) [⟨0, 2, 2, 1⟩, ⟨23/10, 4, 17/10, 1⟩]).getD 0
      default).gap = 3/10 := by
    rw [h2 (by simp)]
    norm_num
  refine ⟨hg, ?_, ?_⟩
  · rw [h4, hg, min_eq_left (by norm_num)]
  · rw [h5, h4, hg, min_eq_left (by norm_num)]
    norm_num

/-! ## C1: the four solver regimes -/

/-- C1 counterexample: the returned speed factor is `round(·, 3)` of the
regime formula, so for `min_speed = 1.0001` (not a whole number of
thousandths) a chunk solved by regime 1 returns `1.000 < min_speed`. -/
theorem C1_min_speed_floor_counterexample :
    (chunk_durs [⟨1, 5/2, 1/2, 0⟩] + chunk_all_gaps [⟨1, 5/2, 1/2, 0⟩]) / (6/5) <
      chunk_durations [⟨1, 5/2, 1/2, 0⟩] ∧
    (process_chunk [⟨1, 5/2, 1/2, 0⟩] (6/5) (10001/10000)).1 < 10001/10000 := by
  constructor
  · norm_num [chunk_durs, chunk_all_gaps, chunk_durations, chunk_tol_durs]
  · norm_num [process_chunk, chunk_durs, chunk_all_gaps, chunk_durations,
      chunk_tol_durs, round3, round_half_even, max_def]

/-- C1 (amended): `process_chunk` evaluates the four regimes in the stated
order on `chunk_durs`, `tol_durs`, `durations = tol_durs −` last tolerance
and `all_gaps = Σgap −` last gap with `ε = 0.1`, returning the regime's
`max(min_speed, ·)` value (regime 4: no floor) rounded half-to-even to
three decimals, with the stated `keep_gaps` policy; consequently the
returned factor is `≥ min_speed` in regimes 1–3 whenever `min_speed` is a
whole number of thousandths. -/
theorem C1_speed_solver (chunk_df : List ChunkRow) (accept min_speed : ℚ) :
    ((chunk_durs chunk_df + chunk_all_gaps chunk_df) / accept < chunk_durations chunk_df →
      process_chunk chunk_df accept min_speed =
        (round3 (max min_speed ((chunk_durs chunk_df + chunk_all_gaps chunk_df) /
          (chunk_durations chunk_df - 1/10))), true))
    ∧ (¬((chunk_durs chunk_df + chunk_all_gaps chunk_df) / accept <
        chunk_durations chunk_df) →
      chunk_durs chunk_df / accept < chunk_durations chunk_df →
      process_chunk chunk_df accept min_speed =
        (round3 (max min_speed (chunk_durs chunk_df /
          (chunk_durations chunk_df - 1/10))), false))
    ∧ (¬((chunk_durs chunk_df + chunk_all_gaps chunk_df) / accept <
        chunk_durations chunk_df) →
      ¬(chunk_durs chunk_df / accept < chunk_durations chunk_df) →
      (chunk_durs chunk_df + chunk_all_gaps chunk_df) / accept < chunk_tol_durs chunk_df →
      process_chunk chunk_df accept min_speed =
        (round3 (max min_speed ((chunk_durs chunk_df + chunk_all_gaps chunk_df) /
          (chunk_tol_durs chunk_df - 1/10))), true))
    ∧ (¬((chunk_durs chunk_df + chunk_all_gaps chunk_df) / accept <
        chunk_durations chunk_df) →
      ¬(chunk_durs chunk_df / accept < chunk_durations chunk_df) →
      ¬((chunk_durs chunk_df + chunk_all_gaps chunk_df) / accept <
        chunk_tol_durs chunk_df) →
      process_chunk chunk_df accept min_speed =
        (round3 (chunk_durs chunk_df / (chunk_tol_durs chunk_df - 1/10)), false))
    ∧ ((∃ k : ℤ, min_speed = (k : ℚ) / 1000) →
      ((chunk_durs chunk_df + chunk_all_gaps chunk_df) / accept <
          chunk_durations chunk_df ∨
        chunk_durs chunk_df / accept < chunk_durations chunk_df ∨
        (chunk_durs chunk_df + chunk_all_gaps chunk_df) / accept <
          chunk_tol_durs chunk_df) →
      min_speed ≤ (process_chunk chunk_df accept min_speed).1) := by
  refine ⟨fun h1 => ?_, fun h1 h2 => ?_, fun h1 h2 h3 => ?_, fun h1 h2 h3 => ?_,
    fun hk hr => ?_⟩
  · simp only [process_chunk]
    rw [if_pos h1]
  · simp only [process_chunk]
    rw [if_neg h1, if_pos h2]
  · simp only [process_chunk]
    rw [if_neg h1, if_neg h2, if_pos h3]
  · simp only [process_chunk]
    rw [if_neg h1, if_neg h2, if_neg h3]
  · obtain ⟨k, hkv⟩ := hk
    simp only [process_chunk]
    by_cases h1 : (chunk_durs chunk_df + chunk_all_gaps chunk_df) / accept <
        chunk_durations chunk_df
    · rw [if_pos h1]
      exact round3_ge_of_thousandth_le k hkv (le_max_left _ _)
    · rw [if_neg h1]
      by_cases h2 : chunk_durs chunk_df / accept < chunk_durations chunk_df
      · rw [if_pos h2]
        exact round3_ge_of_thousandth_le k hkv (le_max_left _ _)
      · rw [if_neg h2]
        have h3 : (chunk_durs chunk_df + chunk_all_gaps chunk_df) / accept <
            chunk_tol_durs chunk_df := by tauto
        rw [if_pos h3]
        exact round3_ge_of_thousandth_le k hkv (le_max_left _ _)

/-- Witness for C1: the spec's worked example lands in regime 1 with
`(1.111, keep_gaps)`, with the floor respected, and a regime-4 chunk gets
the unfloored `chunk_durs/(tol_durs-ε)`. -/
theorem C1_speed_solver_witness :
    process_chunk exampleChunk (6/5) 1 = (1111/1000, true) ∧
    1 ≤ (process_chunk exampleChunk (6/5) 1).1 ∧
    process_chunk [⟨10, 2, 1/2, 0⟩] (6/5) 1 = (5263/1000, false) := by
  have hr1 : (chunk_durs exampleChunk + chunk_all_gaps exampleChunk) / (6/5) <
      chunk_durations exampleChunk := by
    norm_num [chunk_durs, chunk_all_gaps, chunk_durations, chunk_tol_durs, exampleChunk]
  have h1 := (C1_speed_solver exampleChunk (6/5) 1).1 hr1
  have hfloor := (C1_speed_solver exampleChunk (6/5) 1).2.2.2.2
    ⟨1000, by norm_num⟩ (Or.inl hr1)
  have hn1 : ¬((chunk_durs [(⟨10, 2, 1/2, 0⟩ : ChunkRow)] +
      chunk_all_gaps [(⟨10, 2, 1/2, 0⟩ : ChunkRow)]) / (6/5) <
      chunk_durations [(⟨10, 2, 1/2, 0⟩ : ChunkRow)]) := by
    norm_num [chunk_durs, chunk_all_gaps, chunk_durations, chunk_tol_durs]
  have hn2 : ¬(chunk_durs [(⟨10, 2, 1/2, 0⟩ : ChunkRow)] / (6/5) <
      chunk_durations [(⟨10, 2, 1/2, 0⟩ : ChunkRow)]) := by
    norm_num [chunk_durs, chunk_durations, chunk_tol_durs]
  have hn3 : ¬((chunk_durs [(⟨10, 2, 1/2, 0⟩ : ChunkRow)] +
      chunk_all_gaps [(⟨10, 2, 1/2, 0⟩ : ChunkRow)]) / (6/5) <
      chunk_tol_durs [(⟨10, 2, 1/2, 0⟩ : ChunkRow)]) := by
    norm_num [chunk_durs, chunk_all_gaps, chunk_tol_durs]
  have h4 := (C1_speed_solver [(⟨10, 2, 1/2, 0⟩ : ChunkRow)] (6/5) 1).2.2.2.1 hn1 hn2 hn3
  refine ⟨?_, hfloor, ?_⟩
  · rw [h1]
    norm_num [chunk_durs, chunk_all_gaps, chunk_durations, chunk_tol_durs, exampleChunk,
      round3, round_half_even, max_def]
  · rw [h4]
    norm_num [chunk_durs, chunk_tol_durs, round3, round_half_even]

/-! ## C2: timeline rendering and overflow correction -/

theorem renderLine_snd (ds : List ℚ) : ∀ cur : ℚ, (renderLine cur ds).2 = cur + ds.sum := by
  induction ds with
  | nil => intro cur; simp [renderLine]
  | cons d ds ih =>
    intro cur
    simp only [renderLine, List.sum_cons, ih]
    ring

theorem renderLine_getLast (ds : List ℚ) : ∀ cur : ℚ, ds ≠ [] →
    (renderLine cur ds).1.getLast?.map (·.2) = some ((renderLine cur ds).2) := by
  induction ds with
  | nil => intro cur h; exact absurd rfl h
  | cons d ds ih =>
    intro cur _
    cases ds with
    | nil => rfl
    | cons d2 ds' =>
      simp only [renderLine]
      rw [List.getLast?_cons_cons]
      exact ih (cur + d) (by simp)

theorem renderRest_snd (sp : ℚ) (kg : Bool) (rows : List RenderRow) :
    ∀ pg cur : ℚ, (renderRest sp kg pg rows cur).2 =
      cur + (rows.map (fun r => r.ad_durs.sum)).sum +
        (if kg then ((pg :: rows.map (·.gap)).take rows.length).sum / sp else 0) := by
  induction rows with
  | nil => intro pg cur; cases kg <;> simp [renderRest]
  | cons r rest ih =>
    intro pg cur
    simp only [renderRest, ih, renderLine_snd, List.map_cons, List.sum_cons,
      List.length_cons, List.take_succ_cons]
    cases kg <;> simp only [if_true, if_false, Bool.false_eq_true]
    · ring
    · rw [add_div]
      ring

theorem dropLast_map_gap (rest : List RenderRow) : ∀ r : RenderRow,
    (r :: rest).dropLast.map (·.gap) = (r.gap :: rest.map (·.gap)).take rest.length := by
  induction rest with
  | nil => intro r; rfl
  | cons b l ih =>
    intro r
    rw [List.dropLast_cons₂, List.map_cons, ih b]
    simp [List.take_succ_cons]

/-- The rendered span of a chunk: the cursor ends at the start plus all
adjusted clip durations plus (if gaps are kept) the internal gaps scaled by
the speed factor. -/
theorem renderChunk_snd (sp : ℚ) (kg : Bool) (rows : List RenderRow) (cs : ℚ) :
    (renderChunk sp kg rows cs).2 =
      cs + (rows.map (fun r => r.ad_durs.sum)).sum +
        (if kg then (rows.dropLast.map (·.gap)).sum / sp else 0) := by
  cases rows with
  | nil => cases kg <;> simp [renderChunk]
  | cons r rest =>
    simp only [renderChunk, renderRest_snd, renderLine_snd, List.map_cons,
      List.sum_cons, dropLast_map_gap]
    ring

theorem renderRest_fst_ne_nil (sp : ℚ) (kg : Bool) (pg cur : ℚ) (r : RenderRow)
    (rest : List RenderRow) : (renderRest sp kg pg (r :: rest) cur).1 ≠ [] := by
  simp [renderRest]

theorem getLast?_cons_ne_nil {α : Type} (x : α) (l : List α) (h : l ≠ []) :
    (x :: l).getLast? = l.getLast? := by
  cases l with
  | nil => exact absurd rfl h
  | cons b t => exact List.getLast?_cons_cons

theorem lastEnd_cons_of_ne_nil (x : List (ℚ × ℚ)) (ls : List (List (ℚ × ℚ)))
    (h : ls ≠ []) : lastEnd (x :: ls) = lastEnd ls := by
  unfold lastEnd
  rw [getLast?_cons_ne_nil x ls h]

theorem renderRest_lastEnd (sp : ℚ) (kg : Bool) (rows : List RenderRow) :
    ∀ pg cur : ℚ, rows ≠ [] → (rows.getLast?.getD default).ad_durs ≠ [] →
    lastEnd (renderRest sp kg pg rows cur).1 =
      some ((renderRest sp kg pg rows cur).2) := by
  induction rows with
  | nil => intro pg cur h; exact absurd rfl h
  | cons r rest ih =>
    intro pg cur _ hlast
    cases rest with
    | nil =>
      simp only [renderRest, lastEnd, List.getLast?_singleton, Option.some_bind]
      exact renderLine_getLast _ _ (by simpa [List.getLast?_singleton] using hlast)
    | cons r2 rest' =>
      have hlast' : ((r2 :: rest').getLast?.getD default).ad_durs ≠ [] := by
        rwa [List.getLast?_cons_cons] at hlast
      have hne := renderRest_fst_ne_nil sp kg r.gap
        ((renderLine (if kg = true then cur + pg / sp else cur) r.ad_durs).2) r2 rest'
      show lastEnd ((renderLine (if kg = true then cur + pg / sp else cur) r.ad_durs).1 ::
        (renderRest sp kg r.gap (r2 :: rest')
          (renderLine (if kg = true then cur + pg / sp else cur) r.ad_durs).2).1) = _
      rw [lastEnd_cons_of_ne_nil _ _ hne]
      exact ih r.gap _ (by simp) hlast'

theorem renderChunk_lastEnd (sp : ℚ) (kg : Bool) (rows : List RenderRow) (cs : ℚ)
    (hrows : rows ≠ []) (hlast : (rows.getLast?.getD default).ad_durs ≠ []) :
    lastEnd (renderChunk sp kg rows cs).1 = some ((renderChunk sp kg rows cs).2) := by
  cases rows with
  | nil => exact absurd rfl hrows
  | cons r rest =>
    cases rest with
    | nil =>
      simp only [renderChunk, renderRest, lastEnd, List.getLast?_singleton,
        Option.some_bind]
      exact renderLine_getLast _ _ (by simpa [List.getLast?_singleton] using hlast)
    | cons r2 rest' =>
      have hne := renderRest_fst_ne_nil sp kg r.gap
        ((renderLine cs r.ad_durs).2) r2 rest'
      show lastEnd ((renderLine cs r.ad_durs).1 ::
        (renderRest sp kg r.gap (r2 :: rest') (renderLine cs r.ad_durs).2).1) = _
      rw [lastEnd_cons_of_ne_nil _ _ hne]
      exact renderRest_lastEnd sp kg (r2 :: rest') r.gap
        ((renderLine cs r.ad_durs).2) (by simp)
        (by rwa [List.getLast?_cons_cons] at hlast)

theorem getLast?_set_last {α : Type} (l : List α) (a : α) (h : l ≠ []) :
    (l.set (l.length - 1) a).getLast? = some a := by
  have hlen : l.length - 1 < l.length := by
    cases l with
    | nil => exact absurd rfl h
    | cons x xs => simp
  rw [List.getLast?_eq_getElem?, List.length_set, List.getElem?_set_self hlen]

theorem lastEnd_setLastEnd (times : List (List (ℚ × ℚ))) (t : ℚ) (x : ℚ)
    (h : lastEnd times = some x) : lastEnd (setLastEnd times t) = some t := by
  unfold lastEnd at h
  obtain ⟨L, hL⟩ : ∃ L, times.getLast? = some L := by
    cases hl : times.getLast? with
    | none => rw [hl] at h; simp at h
    | some L => exact ⟨L, rfl⟩
  obtain ⟨c, hc⟩ : ∃ c, L.getLast? = some c := by
    cases hcl : L.getLast? with
    | none => rw [hL] at h; simp [hcl] at h
    | some c => exact ⟨c, rfl⟩
  have htimes : times ≠ [] := by
    intro he; rw [he] at hL; simp at hL
  have hLne : L ≠ [] := by
    intro he; rw [he] at hc; simp at hc
  simp only [setLastEnd, hL, hc]
  unfold lastEnd
  rw [getLast?_set_last _ _ htimes, Option.some_bind,
    getLast?_set_last _ _ hLne]
  rfl

/-- C2: the rendered span of a chunk equals the sum of its adjusted clip
durations plus, when `keep_gaps`, each internal gap divided by the speed
factor (nothing for gaps otherwise); if the cursor overran the nominal
chunk end (last line's end plus tolerance) by at most 0.6 s the final
clip's recorded end is clamped to exactly the nominal end, while any
larger overflow is left uncorrected, leaving the rendered end more than
0.6 s past the nominal end. -/
theorem C2_timeline_renderer (speed_factor : ℚ) (keep_gaps : Bool)
    (rows : List RenderRow) (chunk_start_time chunk_end_time : ℚ) :
    ((renderChunk speed_factor keep_gaps rows chunk_start_time).2 - chunk_start_time =
      (rows.map (fun r => r.ad_durs.sum)).sum +
        (if keep_gaps then (rows.dropLast.map (·.gap)).sum / speed_factor else 0))
    ∧ (rows ≠ [] → (rows.getLast?.getD default).ad_durs ≠ [] →
      (chunk_end_time < (renderChunk speed_factor keep_gaps rows chunk_start_time).2 →
        (renderChunk speed_factor keep_gaps rows chunk_start_time).2 - chunk_end_time ≤
          6/10 →
        lastEnd (mergeOneChunk speed_factor keep_gaps rows chunk_start_time
          chunk_end_time) = some chunk_end_time)
      ∧ (6/10 < (renderChunk speed_factor keep_gaps rows chunk_start_time).2 -
          chunk_end_time →
        mergeOneChunk speed_factor keep_gaps rows chunk_start_time chunk_end_time =
          (renderChunk speed_factor keep_gaps rows chunk_start_time).1 ∧
        lastEnd (renderChunk speed_factor keep_gaps rows chunk_start_time).1 =
          some ((renderChunk speed_factor keep_gaps rows chunk_start_time).2) ∧
        ¬|(renderChunk speed_factor keep_gaps rows chunk_start_time).2 -
          chunk_end_time| ≤ 6/10)) := by
  refine ⟨by rw [renderChunk_snd]; ring, fun hrows hlast => ⟨fun hover hsmall => ?_,
    fun hbig => ?_⟩⟩
  · unfold mergeOneChunk applyOverflowCorrection
    rw [if_pos ⟨hover, hsmall⟩]
    exact lastEnd_setLastEnd _ _ _ (renderChunk_lastEnd _ _ _ _ hrows hlast)
  · refine ⟨?_, renderChunk_lastEnd _ _ _ _ hrows hlast, ?_⟩
    · unfold mergeOneChunk applyOverflowCorrection
      rw [if_neg (by rintro ⟨-, hle⟩; linarith)]
    · rw [abs_of_pos (by linarith)]
      linarith

/-- Witness for C2: a two-row chunk rendered at speed 2 with kept gaps ends
at `4.25`, overflowing the nominal end `4` by `0.25 ≤ 0.6`, so the recorded
end is clamped to exactly `4`. -/
theorem C2_timeline_renderer_witness :
    lastEnd (mergeOneChunk 2 true [⟨1/2, 1/5, [1, 1]⟩, ⟨3/10, 1/10, [2]⟩] 0 4) =
      some 4 := by
  have hval : (renderChunk 2 true
      [(⟨1/2, 1/5, [1, 1]⟩ : RenderRow), ⟨3/10, 1/10, [2]⟩] 0).2 = 17/4 := by
    norm_num [renderChunk, renderRest, renderLine]
  exact ((C2_timeline_renderer 2 true [⟨1/2, 1/5, [1, 1]⟩, ⟨3/10, 1/10, [2]⟩] 0 4).2
    (by simp)
    (by simp [List.getLast?_cons_cons, List.getLast?_singleton])).1
    (by rw [hval]; norm_num) (by rw [hval]; norm_num)

/-! ## ChunkPlanner lemmas -/

theorem getD_set_self {α : Type} [Inhabited α] (l : List α) (i : Nat) (a : α)
    (h : i < l.length) : (l.set i a).getD i default = a := by
  rw [List.getD_eq_getElem?_getD, List.getElem?_set_self h]
  rfl

theorem getD_set_ne {α : Type} [Inhabited α] (l : List α) (i j : Nat) (a : α)
    (h : i ≠ j) : (l.set i a).getD j default = l.getD j default := by
  rw [List.getD_eq_getElem?_getD, List.getElem?_set_ne h, ← List.getD_eq_getElem?_getD]

theorem setCutoff_length (df : List PlanLine) (i : Nat) :
    (setCutoff df i).length = df.length := by
  simp [setCutoff]

theorem setCutoff_getD_self (df : List PlanLine) (i : Nat) (h : i < df.length) :
    (setCutoff df i).getD i default = markCut (df.getD i default) := by
  unfold setCutoff
  exact getD_set_self _ _ _ h

theorem setCutoff_getD_ne (df : List PlanLine) (i j : Nat) (h : i ≠ j) :
    (setCutoff df i).getD j default = df.getD j default := by
  unfold setCutoff
  exact getD_set_ne _ _ _ _ h

theorem markCut_cut_off (l : PlanLine) : (markCut l).cut_off = 1 := rfl

theorem setCutoff_mono (df : List PlanLine) (i : Nat) : PlanMono df (setCutoff df i) := by
  refine ⟨setCutoff_length df i, fun j => ?_⟩
  by_cases hij : i = j
  · subst hij
    by_cases hi : i < df.length
    · right
      exact setCutoff_getD_self df i hi
    · left
      rw [List.getD_eq_default _ _ (by rw [setCutoff_length]; omega),
        List.getD_eq_default _ _ (by omega)]
  · left
    exact setCutoff_getD_ne df i j hij

theorem planMono_refl (df : List PlanLine) : PlanMono df df :=
  ⟨rfl, fun _ => Or.inl rfl⟩

theorem planMono_trans {a b c : List PlanLine} (h1 : PlanMono a b) (h2 : PlanMono b c) :
    PlanMono a c := by
  refine ⟨h2.1.trans h1.1, fun i => ?_⟩
  rcases h2.2 i with h | h <;> rcases h1.2 i with h' | h'
  · left; rw [h, h']
  · right; rw [h, h']
  · right; rw [h, h']
  · right; rw [h, h']; simp [markCut]

theorem planMono_cut {df df' : List PlanLine} (h : PlanMono df df') (i : Nat)
    (hc : (df.getD i default).cut_off = 1) : (df'.getD i default).cut_off = 1 := by
  rcases h.2 i with he | he <;> rw [he]
  · exact hc
  · rfl

/-- Postconditions of the `merge_rows` loop: the table keeps its length and
is only cut-marked, the returned count `r` satisfies `mc ≤ r` and
`s + r ≤ |df|`, and row `s + r - 1` ends up cut-marked. -/
theorem merge_rows_loop_spec (accept : ℚ) (df : List PlanLine) (s : Nat)
    (mc : Nat) (e t d : ℚ) (h1 : 1 ≤ mc) (hs : s + mc ≤ df.length) :
    (merge_rows_loop accept df s e t d mc).1.length = df.length ∧
    mc ≤ (merge_rows_loop accept df s e t d mc).2 ∧
    s + (merge_rows_loop accept df s e t d mc).2 ≤ df.length ∧
    ((merge_rows_loop accept df s e t d mc).1.getD
      (s + (merge_rows_loop accept df s e t d mc).2 - 1) default).cut_off = 1 ∧
    PlanMono df (merge_rows_loop accept df s e t d mc).1 := by
  have hM : MAX_MERGE_COUNT = 5 := rfl
  have H : ∀ fuel mc e t d, MAX_MERGE_COUNT - mc ≤ fuel → 1 ≤ mc →
      s + mc ≤ df.length →
      (merge_rows_loop accept df s e t d mc).1.length = df.length ∧
      mc ≤ (merge_rows_loop accept df s e t d mc).2 ∧
      s + (merge_rows_loop accept df s e t d mc).2 ≤ df.length ∧
      ((merge_rows_loop accept df s e t d mc).1.getD
        (s + (merge_rows_loop accept df s e t d mc).2 - 1) default).cut_off = 1 ∧
      PlanMono df (merge_rows_loop accept df s e t d mc).1 := by
    intro fuel
    induction fuel with
    | zero =>
      intro mc e t d hf h1 hs
      rw [merge_rows_loop, dif_neg (by omega), if_pos (Or.inl (by omega))]
      refine ⟨setCutoff_length df _, le_refl mc, hs, ?_, setCutoff_mono df _⟩
      rw [setCutoff_getD_self df _ (by omega)]
      rfl
    | succ fuel ih =>
      intro mc e t d hf h1 hs
      by_cases hg : mc < MAX_MERGE_COUNT ∧ s + mc < df.length
      · rw [merge_rows_loop, dif_pos hg]
        by_cases hif : calc_if_too_fast accept (e + (df.getD (s + mc) default).est_dur)
            (t + (df.getD (s + mc) default).tol_dur)
            (d + (df.getD (s + mc) default).duration)
            ((df.getD (s + mc) default).tolerance) ≤ 0 ∨ mc = 2
        · simp only [if_pos hif]
          refine ⟨setCutoff_length df _, by omega, by omega, ?_, setCutoff_mono df _⟩
          rw [show s + (mc + 1) - 1 = s + mc by omega,
            setCutoff_getD_self df _ hg.2]
          rfl
        · simp only [if_neg hif]
          obtain ⟨ha, hb, hc, hd, he⟩ := ih (mc + 1) (e + (df.getD (s + mc) default).est_dur)
            (t + (df.getD (s + mc) default).tol_dur)
            (d + (df.getD (s + mc) default).duration)
            (by omega) (by omega) (by omega)
          exact ⟨ha, by omega, hc, hd, he⟩
      · rw [merge_rows_loop, dif_neg hg, if_pos (by omega)]
        refine ⟨setCutoff_length df _, le_refl mc, hs, ?_, setCutoff_mono df _⟩
        rw [setCutoff_getD_self df _ (by omega)]
        rfl
  exact H (MAX_MERGE_COUNT - mc) mc e t d le_rfl h1 hs

/-- The same postconditions for `merge_rows` as called by the planner. -/
theorem merge_rows_spec (accept : ℚ) (df : List PlanLine) (s : Nat)
    (hs : s < df.length) :
    (merge_rows accept df s 1).1.length = df.length ∧
    1 ≤ (merge_rows accept df s 1).2 ∧
    s + (merge_rows accept df s 1).2 ≤ df.length ∧
    ((merge_rows accept df s 1).1.getD
      (s + (merge_rows accept df s 1).2 - 1) default).cut_off = 1 ∧
    PlanMono df (merge_rows accept df s 1).1 := by
  unfold merge_rows
  exact merge_rows_loop_spec accept df s 1 _ _ _ le_rfl (by omega)

/-- The planner scan only ever sets cut marks. -/
theorem process_cutoffs_loop_mono (accept : ℚ) :
    ∀ (fuel : Nat) (df : List PlanLine) (idx : Nat),
    PlanMono df (process_cutoffs_loop accept fuel df idx) := by
  intro fuel
  induction fuel with
  | zero => intro df idx; exact planMono_refl df
  | succ fuel ih =>
    intro df idx
    simp only [process_cutoffs_loop]
    by_cases hidx : idx < df.length
    · rw [if_pos hidx]
      by_cases hcut : (df.getD idx default).cut_off = 1
      · rw [if_pos hcut]
        exact ih df (idx + 1)
      · rw [if_neg hcut]
        by_cases hbreak : df.length ≤ idx + 1
        · rw [if_pos hbreak]
          exact setCutoff_mono df idx
        · rw [if_neg hbreak]
          by_cases hflags : (df.getD idx default).if_too_fast ≤ 0 ∧
              (df.getD (idx + 1) default).if_too_fast ≤ 0
          · rw [if_pos hflags]
            exact planMono_trans (setCutoff_mono df idx) (ih _ (idx + 1))
          · rw [if_neg hflags]
            exact planMono_trans (merge_rows_spec accept df idx hidx).2.2.2.2
              (ih _ (idx + (merge_rows accept df idx 1).2))
    · rw [if_neg hidx]
      exact planMono_refl df

/-- After the scan, the last row of a non-empty table carries a cut mark. -/
theorem process_cutoffs_loop_lastCut (accept : ℚ) :
    ∀ (fuel : Nat) (df : List PlanLine) (idx : Nat),
      df.length - idx ≤ fuel →
      (idx < df.length ∨ (df.getD (df.length - 1) default).cut_off = 1) →
      0 < df.length →
      ((process_cutoffs_loop accept fuel df idx).getD
        ((process_cutoffs_loop accept fuel df idx).length - 1) default).cut_off = 1 := by
  intro fuel
  induction fuel with
  | zero =>
    intro df idx hf hd hne
    rcases hd with h | h
    · omega
    · exact h
  | succ fuel ih =>
    intro df idx hf hd hne
    simp only [process_cutoffs_loop]
    by_cases hidx : idx < df.length
    · rw [if_pos hidx]
      by_cases hcut : (df.getD idx default).cut_off = 1
      · rw [if_pos hcut]
        refine ih df (idx + 1) (by omega) ?_ hne
        by_cases hlt : idx + 1 < df.length
        · exact Or.inl hlt
        · right
          rwa [show df.length - 1 = idx by omega]
      · rw [if_neg hcut]
        by_cases hbreak : df.length ≤ idx + 1
        · rw [if_pos hbreak, setCutoff_length,
            show df.length - 1 = idx by omega,
            setCutoff_getD_self df idx hidx]
          rfl
        · rw [if_neg hbreak]
          by_cases hflags : (df.getD idx default).if_too_fast ≤ 0 ∧
              (df.getD (idx + 1) default).if_too_fast ≤ 0
          · rw [if_pos hflags]
            refine ih (setCutoff df idx) (idx + 1) ?_ ?_ ?_ <;>
              rw [setCutoff_length]
            · omega
            · exact Or.inl (by omega)
            · omega
          · rw [if_neg hflags]
            obtain ⟨hlen, h1r, hsr, hcutr, -⟩ := merge_rows_spec accept df idx hidx
            show ((process_cutoffs_loop accept fuel (merge_rows accept df idx 1).1
              (idx + (merge_rows accept df idx 1).2)).getD
              ((process_cutoffs_loop accept fuel (merge_rows accept df idx 1).1
                (idx + (merge_rows accept df idx 1).2)).length - 1) default).cut_off = 1
            refine ih (merge_rows accept df idx 1).1
              (idx + (merge_rows accept df idx 1).2) (by omega) ?_ (by omega)
            by_cases hlt : idx + (merge_rows accept df idx 1).2 <
                (merge_rows accept df idx 1).1.length
            · exact Or.inl hlt
            · right
              rw [hlen] at hlt
              rw [hlen, show df.length - 1 =
                idx + (merge_rows accept df idx 1).2 - 1 from by omega]
              exact hcutr
    · rw [if_neg hidx]
      rcases hd with h | h
      · omega
      · exact h

theorem chunksOf_flatten : ∀ df : List PlanLine, (chunksOf df).flatten = df := by
  intro df
  induction df with
  | nil => rfl
  | cons l rest ih =>
    simp only [chunksOf]
    by_cases h : l.cut_off = 1
    · rw [if_pos h]
      simp [ih]
    · rw [if_neg h]
      cases hc : chunksOf rest with
      | nil =>
        have : rest = [] := by rw [← ih, hc]; rfl
        simp [this]
      | cons c cs =>
        simp only [List.flatten_cons]
        rw [← ih, hc]
        simp

theorem chunksOf_sound : ∀ df : List PlanLine,
    (df.getD (df.length - 1) default).cut_off = 1 →
    ∀ c ∈ chunksOf df, c ≠ [] ∧ (c.getD (c.length - 1) default).cut_off = 1 ∧
      ∀ j, j + 1 < c.length → (c.getD j default).cut_off ≠ 1 := by
  intro df
  induction df with
  | nil =>
    intro _ c hc
    simp [chunksOf] at hc
  | cons l rest ih =>
    intro hlast c hc
    simp only [chunksOf] at hc
    by_cases h : l.cut_off = 1
    · rw [if_pos h] at hc
      rcases List.mem_cons.mp hc with rfl | hc'
      · exact ⟨by simp, by simpa using h, fun j hj => by simp at hj⟩
      · cases hrest : rest with
        | nil =>
          rw [hrest] at hc'
          simp [chunksOf] at hc'
        | cons r2 rs =>
          refine ih ?_ c (hrest ▸ hc')
          rw [hrest]
          have : (l :: r2 :: rs).getD ((l :: r2 :: rs).length - 1) default =
              (r2 :: rs).getD ((r2 :: rs).length - 1) default := by
            simp only [List.length_cons]
            rw [show rs.length + 1 + 1 - 1 = (rs.length + 1 - 1) + 1 from by omega,
              List.getD_cons_succ]
          rw [← this, ← hrest]
          exact hlast
    · rw [if_neg h] at hc
      cases hrest : rest with
      | nil =>
        rw [hrest] at hlast
        simp only [List.length_cons, List.length_nil, List.getD_cons_zero] at hlast
        exact absurd (by simpa using hlast) h
      | cons r2 rs =>
        have hlastr : (rest.getD (rest.length - 1) default).cut_off = 1 := by
          rw [hrest]
          have : (l :: r2 :: rs).getD ((l :: r2 :: rs).length - 1) default =
              (r2 :: rs).getD ((r2 :: rs).length - 1) default := by
            simp only [List.length_cons]
            rw [show rs.length + 1 + 1 - 1 = (rs.length + 1 - 1) + 1 from by omega,
              List.getD_cons_succ]
          rw [← this, ← hrest]
          exact hlast
        cases hcr : chunksOf rest with
        | nil =>
          have : rest = [] := by rw [← chunksOf_flatten rest, hcr]; rfl
          rw [this] at hrest
          exact absurd hrest (by simp)
        | cons c0 cs =>
          rw [hcr] at hc
          rcases List.mem_cons.mp hc with rfl | hc'
          · have hc0 := ih hlastr c0 (by rw [hcr]; exact List.mem_cons_self c0 cs)
            obtain ⟨hc0ne, hc0last, hc0int⟩ := hc0
            have hc0len : 1 ≤ c0.length := by
              cases c0 with
              | nil => exact absurd rfl hc0ne
              | cons a b => simp
            refine ⟨by simp, ?_, ?_⟩
            · simp only [List.length_cons]
              rw [show c0.length + 1 - 1 = (c0.length - 1) + 1 from by omega,
                List.getD_cons_succ]
              exact hc0last
            · intro j hj
              cases j with
              | zero => simpa using h
              | succ j' =>
                rw [List.getD_cons_succ]
                exact hc0int j' (by simp at hj; omega)
          · exact ih hlastr c (by rw [hcr]; exact List.mem_cons_of_mem c0 hc')

/-! ## C4: chunk partition -/

/-- C4: after `process_cutoffs`, the last line of a non-empty sequence has
`cut_off = 1`, and cutting after each `cut_off = 1` line partitions the
sequence contiguously into non-empty chunks whose only `cut_off = 1` line
is their last. -/
theorem C4_chunk_partition (accept TOLERANCE : ℚ) (df : List PlanLine)
    (hdf : df ≠ []) :
    (process_cutoffs accept TOLERANCE df).length = df.length ∧
    ((process_cutoffs accept TOLERANCE df).getD
      ((process_cutoffs accept TOLERANCE df).length - 1) default).cut_off = 1 ∧
    (chunksOf (process_cutoffs accept TOLERANCE df)).flatten =
      process_cutoffs accept TOLERANCE df ∧
    ∀ c ∈ chunksOf (process_cutoffs accept TOLERANCE df),
      c ≠ [] ∧ (c.getD (c.length - 1) default).cut_off = 1 ∧
      ∀ j, j + 1 < c.length → (c.getD j default).cut_off ≠ 1 := by
  have hlen0 : (initCutoffs TOLERANCE df).length = df.length := by
    simp [initCutoffs]
  have hpos : 0 < df.length := List.length_pos.mpr hdf
  have hlast := process_cutoffs_loop_lastCut accept df.length
    (initCutoffs TOLERANCE df) 0 (by omega) (Or.inl (by omega)) (by omega)
  refine ⟨?_, hlast, chunksOf_flatten _, ?_⟩
  · unfold process_cutoffs
    rw [(process_cutoffs_loop_mono accept df.length (initCutoffs TOLERANCE df) 0).1,
      hlen0]
  · refine chunksOf_sound _ ?_
    have hlenp : (process_cutoffs accept TOLERANCE df).length =
        (initCutoffs TOLERANCE df).length :=
      (process_cutoffs_loop_mono accept df.length (initCutoffs TOLERANCE df) 0).1
    exact hlast

/-- Witness for C4: a two-line table; after planning, the last line is
cut-marked. -/
theorem C4_chunk_partition_witness :
    ((process_cutoffs (6/5) (1/2) [⟨1, 1/2, 2, 2, 1, 0, 0⟩, ⟨0, 0, 2, 2, 1, 0, 0⟩]).getD
      ((process_cutoffs (6/5) (1/2)
        [⟨1, 1/2, 2, 2, 1, 0, 0⟩, ⟨0, 0, 2, 2, 1, 0, 0⟩]).length - 1)
      default).cut_off = 1 :=
  (C4_chunk_partition (6/5) (1/2) [⟨1, 1/2, 2, 2, 1, 0, 0⟩, ⟨0, 0, 2, 2, 1, 0, 0⟩]
    (by simp)).2.1

/-! ## C9: long gaps are permanent chunk boundaries -/

/-- C9: a line whose gap is at least `GLOBAL_TOLERANCE` is cut-marked by the
planner's initialization and stays cut-marked in the final output, and no
scan step ever resets an existing `cut_off = 1` mark. -/
theorem C9_long_gap_boundary (accept TOLERANCE : ℚ) (df : List PlanLine) :
    (∀ i, i < df.length → TOLERANCE ≤ (df.getD i default).gap →
      ((process_cutoffs accept TOLERANCE df).getD i default).cut_off = 1) ∧
    (∀ (fuel : Nat) (d : List PlanLine) (idx i : Nat),
      (d.getD i default).cut_off = 1 →
      ((process_cutoffs_loop accept fuel d idx).getD i default).cut_off = 1) := by
  constructor
  · intro i hi hgap
    have hgap' : TOLERANCE ≤ df[i].gap := by
      rwa [List.getD_eq_getElem _ _ hi] at hgap
    have hcut1 : ((initCutoffs TOLERANCE df).getD i default).cut_off = 1 := by
      unfold initCutoffs
      rw [List.getD_eq_getElem _ _ (by simpa using hi), List.getElem_map]
      simp [hgap']
    exact planMono_cut
      (process_cutoffs_loop_mono accept df.length (initCutoffs TOLERANCE df) 0) i hcut1
  · intro fuel d idx i hc
    exact planMono_cut (process_cutoffs_loop_mono accept fuel d idx) i hc

/-- Witness for C9: the first line of the two-line table has gap `1 ≥ 0.5`
and ends cut-marked. -/
theorem C9_long_gap_boundary_witness :
    ((process_cutoffs (6/5) (1/2)
      [⟨1, 1/2, 2, 2, 1, 0, 0⟩, ⟨0, 0, 2, 2, 1, 0, 0⟩]).getD 0 default).cut_off = 1 :=
  (C9_long_gap_boundary (6/5) (1/2)
    [⟨1, 1/2, 2, 2, 1, 0, 0⟩, ⟨0, 0, 2, 2, 1, 0, 0⟩]).1 0 (by simp)
    (by norm_num)

/-! ## C7: timestamp alignment -/

/-- `findMatchFrom` returns the least matching position at or after the
cursor. -/
theorem findMatchFrom_spec (hay pat : List Char) (pos p : Nat)
    (heq : findMatchFrom hay pat pos = some p) :
    pos ≤ p ∧ p + pat.length ≤ hay.length ∧
    (hay.drop p).take pat.length = pat ∧
    ∀ q, pos ≤ q → q < p → (hay.drop q).take pat.length ≠ pat := by
  have H : ∀ fuel pos p, hay.length + 1 - pos ≤ fuel →
      findMatchFrom hay pat pos = some p →
      pos ≤ p ∧ p + pat.length ≤ hay.length ∧
      (hay.drop p).take pat.length = pat ∧
      ∀ q, pos ≤ q → q < p → (hay.drop q).take pat.length ≠ pat := by
    intro fuel
    induction fuel with
    | zero =>
      intro pos p hf heq
      rw [findMatchFrom, dif_neg (by omega)] at heq
      exact absurd heq (by simp)
    | succ fuel ih =>
      intro pos p hf heq
      rw [findMatchFrom] at heq
      by_cases hg : pos + pat.length ≤ hay.length
      · rw [dif_pos hg] at heq
        by_cases hm : (hay.drop pos).take pat.length = pat
        · rw [if_pos hm] at heq
          obtain rfl : pos = p := by simpa using heq
          exact ⟨le_rfl, hg, hm, fun q hq1 hq2 => absurd hq2 (by omega)⟩
        · rw [if_neg hm] at heq
          obtain ⟨h1, h2, h3, h4⟩ := ih (pos + 1) p (by omega) heq
          refine ⟨by omega, h2, h3, fun q hq1 hq2 => ?_⟩
          rcases eq_or_lt_of_le hq1 with rfl | hq
          · exact hm
          · exact h4 q (by omega) hq2
      · rw [dif_neg hg] at heq
        exact absurd heq (by simp)
  exact H (hay.length + 1 - pos) pos p le_rfl heq

theorem posToWordIdxAux_shift (cw : List (List Char)) :
    ∀ p i : Nat, posToWordIdxAux cw p i = posToWordIdxAux cw p 0 + i := by
  induction cw with
  | nil => intro p i; simp [posToWordIdxAux]
  | cons w ws ih =>
    intro p i
    simp only [posToWordIdxAux]
    by_cases h : p < w.length
    · rw [if_pos h, if_pos h]
      omega
    · rw [if_neg h, if_neg h, ih (p - w.length) (i + 1), ih (p - w.length) (0 + 1)]
      omega

/-- The position-to-word-index map is correct: position `p` lies inside the
word it is mapped to. -/
theorem posToWordIdx_spec (cw : List (List Char)) :
    ∀ p : Nat, p < cw.flatten.length →
    (cw.take (posToWordIdx cw p)).flatten.length ≤ p ∧
    p < (cw.take (posToWordIdx cw p + 1)).flatten.length := by
  induction cw with
  | nil => intro p hp; simp at hp
  | cons w ws ih =>
    intro p hp
    unfold posToWordIdx posToWordIdxAux
    by_cases h : p < w.length
    · rw [if_pos h]
      constructor
      · simp
      · simpa using Nat.lt_of_lt_of_le h (by simp)
    · rw [if_neg h, posToWordIdxAux_shift ws (p - w.length) (0 + 1)]
      have hp' : p - w.length < ws.flatten.length := by
        simp only [List.flatten_cons, List.length_append] at hp
        omega
      obtain ⟨hl, hr⟩ := ih (p - w.length) hp'
      unfold posToWordIdx at hl hr
      constructor
      · simp only [List.take_succ_cons, List.flatten_cons, List.length_append]
        omega
      · rw [show posToWordIdxAux ws (p - w.length) 0 + (0 + 1) + 1 =
          (posToWordIdxAux ws (p - w.length) 0 + 1) + 1 from by omega]
        simp only [List.take_succ_cons, List.flatten_cons, List.length_append]
        omega

/-- C7: the matcher step of `get_sentence_timestamps` never moves the cursor
backwards; a non-empty normalized sentence is matched at the earliest
position at or after the cursor where it occurs as an exact slice of the
normalized word concatenation; the recorded interval is the start of the
word owning the first matched character and the end of the word owning the
last; the cursor then advances strictly past the match; and the whole
alignment is a pure function of its input (deterministic). -/
theorem C7_aligner_properties :
    (∀ (hay pat : List Char) (pos p : Nat), findMatchFrom hay pat pos = some p →
      pos ≤ p ∧ p + pat.length ≤ hay.length ∧
      (hay.drop p).take pat.length = pat ∧
      ∀ q, pos ≤ q → q < p → (hay.drop q).take pat.length ≠ pat)
    ∧ (∀ (cw : List (List Char)) (p : Nat), p < cw.flatten.length →
      (cw.take (posToWordIdx cw p)).flatten.length ≤ p ∧
      p < (cw.take (posToWordIdx cw p + 1)).flatten.length)
    ∧ (∀ (words : List AsrWord) (s : List Char) (cur : Nat) (iv : ℚ × ℚ) (cur' : Nat),
      alignStep words s cur = some (iv, cur') → cur ≤ cur')
    ∧ (∀ (words : List AsrWord) (s : List Char) (cur : Nat) (iv : ℚ × ℚ) (cur' : Nat),
      cleanSentence s ≠ [] → alignStep words s cur = some (iv, cur') →
      ∃ p, findMatchFrom (fullWordsStr words) (cleanSentence s) cur = some p ∧
        cur ≤ p ∧ cur' = p + (cleanSentence s).length ∧ cur < cur' ∧
        iv = ((words.getD (posToWordIdx (cleanWordsOf words) p) default).start,
              (words.getD (posToWordIdx (cleanWordsOf words)
                (p + (cleanSentence s).length - 1)) default).stop))
    ∧ (∀ (words : List AsrWord) (sentences : List (List Char)),
      get_sentence_timestamps words sentences = get_sentence_timestamps words sentences) := by
  have hstep : ∀ (words : List AsrWord) (s : List Char) (cur : Nat) (iv : ℚ × ℚ)
      (cur' : Nat), cleanSentence s ≠ [] → alignStep words s cur = some (iv, cur') →
      ∃ p, findMatchFrom (fullWordsStr words) (cleanSentence s) cur = some p ∧
        cur ≤ p ∧ cur' = p + (cleanSentence s).length ∧ cur < cur' ∧
        iv = ((words.getD (posToWordIdx (cleanWordsOf words) p) default).start,
              (words.getD (posToWordIdx (cleanWordsOf words)
                (p + (cleanSentence s).length - 1)) default).stop) := by
    intro words s cur iv cur' hne heq
    simp only [alignStep] at heq
    rw [if_neg (by simpa [List.isEmpty_iff] using hne)] at heq
    cases hfind : findMatchFrom (fullWordsStr words) (cleanSentence s) cur with
    | none => rw [hfind] at heq; exact absurd heq (by simp)
    | some p =>
      rw [hfind] at heq
      obtain ⟨hiv, hcur⟩ : iv = ((words.getD (posToWordIdx (cleanWordsOf words) p)
          default).start, (words.getD (posToWordIdx (cleanWordsOf words)
          (p + (cleanSentence s).length - 1)) default).stop) ∧
          cur' = p + (cleanSentence s).length := by
        have := heq
        simp only [Option.some.injEq, Prod.mk.injEq] at this
        exact ⟨this.1.symm, this.2.symm⟩
      have hle := (findMatchFrom_spec _ _ _ _ hfind).1
      have hlen : 1 ≤ (cleanSentence s).length := by
        cases hcs : cleanSentence s with
        | nil => exact absurd hcs hne
        | cons a b => simp
      exact ⟨p, rfl, hle, hcur, by omega, hiv⟩
  refine ⟨fun hay pat pos p => findMatchFrom_spec hay pat pos p,
    fun cw p => posToWordIdx_spec cw p, ?_, hstep, fun _ _ => rfl⟩
  intro words s cur iv cur' heq
  by_cases hne : cleanSentence s = []
  · simp only [alignStep] at heq
    rw [if_pos (by simpa [List.isEmpty_iff] using hne)] at heq
    simp only [Option.some.injEq, Prod.mk.injEq] at heq
    omega
  · obtain ⟨p, -, -, -, hlt, -⟩ := hstep words s cur iv cur' hne heq
    omega

/-- Witness for C7: aligning the sentence `"bc"` against the words
`"ab"`/`"c"` matches at position 1, records the interval from word 0's
start to word 1's end, and advances the cursor from 0 to 3. -/
theorem C7_aligner_properties_witness :
    alignStep [⟨['a', 'b'], 0, 1⟩, ⟨['c'], 1, 2⟩] ['b', 'c'] 0 = some ((0, 2), 3) ∧
    (0 : Nat) ≤ 3 ∧
    (∃ p, findMatchFrom (fullWordsStr [⟨['a', 'b'], 0, 1⟩, ⟨['c'], 1, 2⟩])
        (cleanSentence ['b', 'c']) 0 = some p ∧ (0 : Nat) ≤ p ∧
      (3 : Nat) = p + (cleanSentence ['b', 'c']).length ∧ (0 : Nat) < 3 ∧
      ((0 : ℚ), (2 : ℚ)) =
        ((([⟨['a', 'b'], 0, 1⟩, ⟨['c'], 1, 2⟩] : List AsrWord).getD
          (posToWordIdx (cleanWordsOf [⟨['a', 'b'], 0, 1⟩, ⟨['c'], 1, 2⟩]) p)
          default).start,
         (([⟨['a', 'b'], 0, 1⟩, ⟨['c'], 1, 2⟩] : List AsrWord).getD
          (posToWordIdx (cleanWordsOf [⟨['a', 'b'], 0, 1⟩, ⟨['c'], 1, 2⟩])
            (p + (cleanSentence ['b', 'c']).length - 1))
          default).stop)) := by
  have heval : alignStep [⟨['a', 'b'], 0, 1⟩, ⟨['c'], 1, 2⟩] ['b', 'c'] 0 =
      some ((0, 2), 3) := by
    simp +decide [alignStep, cleanSentence, remove_punctuation, collapseWs, isWordChar,
      cleanWordsOf, fullWordsStr, findMatchFrom, posToWordIdx, posToWordIdxAux]
  have hne : cleanSentence ['b', 'c'] ≠ [] := by
    simp +decide [cleanSentence, remove_punctuation, collapseWs, isWordChar]
  refine ⟨heval, ?_, ?_⟩
  · exact C7_aligner_properties.2.2.1 [⟨['a', 'b'], 0, 1⟩, ⟨['c'], 1, 2⟩]
      ['b', 'c'] 0 (0, 2) 3 heval
  · exact C7_aligner_properties.2.2.2.1 [⟨['a', 'b'], 0, 1⟩, ⟨['c'], 1, 2⟩]
      ['b', 'c'] 0 (0, 2) 3 hne heval
